import Mathlib

/-!
# Companies Directory: the `App` component of `src/my-app/src/App.js`

A shallow embedding of the React component `App`.  Every `useState` hook is a
field of `State`; every handler (`handleSearch`, `handleSort`, `nextPage`,
`prevPage`) is a function from the state at the render that created the handler
to the state after the handler's setters have been applied; the values derived
during a render (`indexOfLast`, `indexOfFirst`, `currentCompanies`,
`totalPages`) are functions of the state; the JSX returned by the component is
`render`.

Text is `String` (a sequence of characters), numbers that hold a page index are
`Int` (JavaScript numbers restricted to the integers the component produces).

The host functions `String.prototype.toLowerCase` and
`String.prototype.localeCompare` are not part of the repository.  They are
parameters (`toLowerCase`, `localeCompare`) of the handlers that call them, so
that general statements hold for every such function; `asciiLowerCase` and
`codePointCompare` are concrete instances used to evaluate the scenarios.
-/

namespace App

/-! ## Data model -/

/-- One element of the array delivered by `/companies.json`. -/
structure Company where
  id : Nat
  name : String
  location : String
  industry : String
deriving DecidableEq, Repr

/-- The component state, one field per `useState` hook (App.js lines 4-10). -/
structure State where
  companies : List Company
  filtered : List Company
  search : String
  sortBy : String
  loading : Bool
  error : String
  currentPage : Int
deriving DecidableEq, Repr

/-- The initial values passed to the `useState` hooks. -/
def initialState : State :=
  { companies := [], filtered := [], search := "", sortBy := "",
    loading := true, error := "", currentPage := 1 }

/-- The constant `companiesPerPage` (line 11). -/
def companiesPerPage : Nat := 5

/-! ## Host functions -/

/-- The method `s.includes(value)`: some suffix of `s` starts with `value`. -/
def includes (s value : String) : Bool :=
  s.data.tails.any (fun u => value.data.isPrefixOf u)

/-- The method `Array.prototype.slice(start, stop)` with the relative-index rules of the
language: a negative index counts from the end, both indices are clamped to the
array, and an empty array results when the clamped interval is empty. -/
def slice {α : Type} (l : List α) (start stop : Int) : List α :=
  let len : Int := l.length
  let k : Int := if start < 0 then max (len + start) 0 else min start len
  let final : Int := if stop < 0 then max (len + stop) 0 else min stop len
  (l.drop k.toNat).take (final - k).toNat

/-- The value `Math.ceil(n / d)` for an array length `n` and a positive integer `d`: the
exact quotient rounded up to an integer. -/
def ceilDiv (n d : Nat) : Int :=
  Int.ofNat ((n + (d - 1)) / d)

/-- One step of the stable sort: `a` is placed in front of the first element
`b` with `compareFn a b ≤ 0`. -/
def sortInsert {α : Type} (compareFn : α → α → Int) (a : α) : List α → List α
  | [] => [a]
  | b :: l => if compareFn a b ≤ 0 then a :: b :: l else b :: sortInsert compareFn a l

/-- The method `Array.prototype.sort(compareFn)`: the stable sort of the language
(ECMAScript 2019 and later), as a right-to-left insertion sort. -/
def sort {α : Type} (compareFn : α → α → Int) : List α → List α
  | [] => []
  | a :: l => sortInsert compareFn a (sort compareFn l)

/-- The requirement the language puts on a comparison function for the result
of `sort` to be defined (a "consistent comparator"): the sign flips when the
arguments are exchanged, and "not after" is transitive. -/
structure ConsistentComparator (cmp : String → String → Int) : Prop where
  flip : ∀ a b, 0 < cmp a b ↔ cmp b a < 0
  trans : ∀ a b c, cmp a b ≤ 0 → cmp b c ≤ 0 → cmp a c ≤ 0

/-- An instance of `toLowerCase` for evaluation: the letters `A`-`Z` are
lowered, every other character is kept. -/
def asciiLowerCase (s : String) : String :=
  String.mk (s.data.map Char.toLower)

/-- The order of two character sequences by their first difference, reported
as `-1`, `0` or `1`. -/
def compareChars : List Char → List Char → Int
  | [], [] => 0
  | [], _ :: _ => -1
  | _ :: _, [] => 1
  | a :: l, b :: m =>
    if a.toNat < b.toNat then -1
    else if b.toNat < a.toNat then 1
    else compareChars l m

/-- An instance of `localeCompare` for evaluation: the order of the character
sequences. -/
def codePointCompare (a b : String) : Int :=
  compareChars a.data b.data

/-! ## Loading (the `useEffect` of lines 13-29) -/

/-- What `fetch("/companies.json")` settles to: a rejection with an error
message, or a response with its `ok` flag and the outcome of `res.json()`. -/
inductive FetchResult where
  | rejected (message : String)
  | response (ok : Bool) (json : Except String (List Company))

/-- The two `then` callbacks: a response that is not `ok` throws
`"Failed to load company data"`, otherwise the parsed body is passed on. -/
def loadChain : FetchResult → Except String (List Company)
  | .rejected message => .error message
  | .response ok json => if !ok then .error "Failed to load company data" else json

/-- The last `then` callback and the `catch` callback applied to the state. -/
def settle (s : State) : Except String (List Company) → State
  | .ok data => { s with companies := data, filtered := data, loading := false }
  | .error message => { s with error := message, loading := false }

/-- The state once the effect has settled. -/
def load (r : FetchResult) : State :=
  settle initialState (loadChain r)

/-! ## Handlers -/

/-- The function `handleSearch` (lines 32-43); `targetValue` is `e.target.value`. -/
def handleSearch (toLowerCase : String → String) (s : State) (targetValue : String) : State :=
  let value := toLowerCase targetValue
  let filteredData := s.companies.filter (fun c =>
    includes (toLowerCase c.name) value ||
    includes (toLowerCase c.location) value ||
    includes (toLowerCase c.industry) value)
  { s with search := value, filtered := filteredData, currentPage := 1 }

/-- The function `handleSort` (lines 46-56); `targetValue` is `e.target.value`. -/
def handleSort (localeCompare : String → String → Int) (s : State) (targetValue : String) :
    State :=
  let sortType := targetValue
  let sorted :=
    if sortType = "name" then
      sort (fun a b => localeCompare a.name b.name) s.filtered
    else if sortType = "industry" then
      sort (fun a b => localeCompare a.industry b.industry) s.filtered
    else s.filtered
  { s with sortBy := sortType, filtered := sorted }

/-! ## Pagination (lines 59-65) -/

/-- The value `indexOfLast` of a render. -/
def indexOfLast (s : State) : Int := s.currentPage * companiesPerPage

/-- The value `indexOfFirst` of a render. -/
def indexOfFirst (s : State) : Int := indexOfLast s - companiesPerPage

/-- The value `currentCompanies` of a render. -/
def currentCompanies (s : State) : List Company :=
  slice s.filtered (indexOfFirst s) (indexOfLast s)

/-- The value `totalPages` of a render. -/
def totalPages (s : State) : Int := ceilDiv s.filtered.length companiesPerPage

/-- The handler `nextPage`. -/
def nextPage (s : State) : State :=
  { s with currentPage := min (s.currentPage + 1) (totalPages s) }

/-- The handler `prevPage`. -/
def prevPage (s : State) : State :=
  { s with currentPage := max (s.currentPage - 1) 1 }

/-! ## Rendering (lines 67-138) -/

/-- What the component returns: the loading paragraph, the error paragraph, or
the directory with its controlled inputs, cards and pagination bar. -/
inductive View where
  | loadingView
  | errorView (message : String)
  | directory (searchValue sortValue : String) (cards : List Company)
      (page pages : Int) (prevDisabled nextDisabled : Bool)
deriving DecidableEq, Repr

/-- The return value of `App`.  A string is truthy exactly when it is not
empty, which is what `if (error)` tests. -/
def render (s : State) : View :=
  if s.loading then .loadingView
  else if s.error ≠ "" then .errorView s.error
  else .directory s.search s.sortBy (currentCompanies s) s.currentPage (totalPages s)
    (decide (s.currentPage = 1)) (decide (s.currentPage = totalPages s))

/-! ## The component as a state machine -/

/-- The user events of the directory view. -/
inductive Event where
  | search (text : String)
  | sort (key : String)
  | next
  | prev
deriving DecidableEq, Repr

/-- One event handled by the handler bound to it. -/
def step (toLowerCase : String → String) (localeCompare : String → String → Int)
    (s : State) : Event → State
  | .search text => handleSearch toLowerCase s text
  | .sort key => handleSort localeCompare s key
  | .next => nextPage s
  | .prev => prevPage s

/-- A finite sequence of events, handled one after the other. -/
def run (toLowerCase : String → String) (localeCompare : String → String → Int)
    (s : State) (events : List Event) : State :=
  events.foldl (step toLowerCase localeCompare) s

/-! ## Scenario data -/

/-- First record of the scenario catalog. -/
def acme : Company := { id := 1, name := "Acme", location := "NY", industry := "Tech" }

/-- Second record of the scenario catalog. -/
def ballCo : Company := { id := 2, name := "Ball Co", location := "LA", industry := "Retail" }

/-- Third record of the scenario catalog. -/
def cadence : Company := { id := 3, name := "Cadence", location := "NY", industry := "Tech" }

/-- The scenario catalog. -/
def sampleCatalog : List Company := [acme, ballCo, cadence]

/-- The state after the scenario catalog has loaded. -/
def sampleState : State :=
  load (.response true (.ok sampleCatalog))

/-- Twelve records with distinct identifiers. -/
def twelveCompanies : List Company :=
  (List.range 12).map (fun i =>
    { id := i + 1, name := "Company", location := "NY", industry := "Tech" })

/-! ## Lemmas on the host functions -/

theorem includes_iff_substring (s value : String) :
    includes s value = true ↔ value.data <:+: s.data := by
  unfold includes
  rw [List.any_eq_true]
  constructor
  · rintro ⟨u, hu, hp⟩
    rw [List.mem_tails] at hu
    rw [ List.isPrefixOf_iff_prefix] at hp
    exact List.infix_iff_prefix_suffix.mpr ⟨u, hp, hu⟩
  · intro h
    obtain ⟨u, hp, hu⟩ := List.infix_iff_prefix_suffix.mp h
    exact ⟨u, (List.mem_tails _ _).mpr hu, List.isPrefixOf_iff_prefix.mpr hp⟩

theorem ceilDiv_eq_ceil (n d : Nat) (hd : 0 < d) :
    ceilDiv n d = ⌈(n : ℚ) / (d : ℚ)⌉ := by
  have hdq : (0 : ℚ) < (d : ℚ) := by exact_mod_cast hd
  symm
  rw [Int.ceil_eq_iff]
  unfold ceilDiv
  obtain ⟨e, rfl⟩ : ∃ e, d = e + 1 := ⟨d - 1, by omega⟩
  simp only [Nat.add_sub_cancel, Int.ofNat_eq_coe, Int.cast_natCast]
  set q := (n + e) / (e + 1) with hq
  have h1 : q * (e + 1) ≤ n + e := Nat.div_mul_le_self _ _
  have h2 : n + e < (q + 1) * (e + 1) := by
    have := Nat.lt_succ_iff.mpr (le_refl ((n + e) / (e + 1)))
    exact (Nat.div_lt_iff_lt_mul (Nat.succ_pos e)).mp this
  constructor
  · rw [lt_div_iff₀ hdq]
    have h3 : q * (e + 1) < n + (e + 1) := by omega
    have h4 : ((q * (e + 1) : ℕ) : ℚ) < ((n + (e + 1) : ℕ) : ℚ) := by exact_mod_cast h3
    push_cast at h4 ⊢
    linarith
  · rw [div_le_iff₀ hdq]
    have h3 : n ≤ q * (e + 1) := by
      have : (q + 1) * (e + 1) = q * (e + 1) + (e + 1) := by ring
      omega
    have h4 : ((n : ℕ) : ℚ) ≤ ((q * (e + 1) : ℕ) : ℚ) := by exact_mod_cast h3
    push_cast at h4 ⊢
    linarith

theorem sortInsert_perm {α : Type} (f : α → α → Int) (a : α) (l : List α) :
    (sortInsert f a l).Perm (a :: l) := by
  induction l with
  | nil => exact List.Perm.refl _
  | cons b l ih =>
    unfold sortInsert
    split
    · exact List.Perm.refl _
    · exact (List.Perm.cons b ih).trans (List.Perm.swap a b l)

theorem sort_perm {α : Type} (f : α → α → Int) (l : List α) : (sort f l).Perm l := by
  induction l with
  | nil => exact List.Perm.refl _
  | cons a l ih =>
    unfold sort
    exact (sortInsert_perm f a _).trans (List.Perm.cons a ih)

theorem sortInsert_pairwise {α : Type} (f : α → α → Int)
    (htot : ∀ a b, ¬ f a b ≤ 0 → f b a ≤ 0)
    (htrans : ∀ a b c, f a b ≤ 0 → f b c ≤ 0 → f a c ≤ 0)
    (a : α) (l : List α) (hl : l.Pairwise (fun x y => f x y ≤ 0)) :
    (sortInsert f a l).Pairwise (fun x y => f x y ≤ 0) := by
  induction l with
  | nil => simp [sortInsert]
  | cons b l ih =>
    rw [List.pairwise_cons] at hl
    unfold sortInsert
    split
    · rename_i hab
      refine List.pairwise_cons.mpr ⟨?_, List.pairwise_cons.mpr hl⟩
      intro y hy
      rcases List.mem_cons.mp hy with rfl | hy
      · exact hab
      · exact htrans _ _ _ hab (hl.1 y hy)
    · rename_i hab
      refine List.pairwise_cons.mpr ⟨?_, ih hl.2⟩
      intro y hy
      rcases List.mem_cons.mp ((sortInsert_perm f a l).subset hy) with rfl | hy
      · exact htot _ _ hab
      · exact hl.1 y hy

theorem sort_pairwise {α : Type} (f : α → α → Int)
    (htot : ∀ a b, ¬ f a b ≤ 0 → f b a ≤ 0)
    (htrans : ∀ a b c, f a b ≤ 0 → f b c ≤ 0 → f a c ≤ 0)
    (l : List α) : (sort f l).Pairwise (fun x y => f x y ≤ 0) := by
  induction l with
  | nil => simp [sort]
  | cons a l ih =>
    unfold sort
    exact sortInsert_pairwise f htot htrans a _ ih

theorem sortInsert_filter {α : Type} (f : α → α → Int) (p : α → Bool)
    (hp : ∀ a b, p a = true → p b = true → f a b ≤ 0) (a : α) (l : List α) :
    (sortInsert f a l).filter p = (a :: l).filter p := by
  induction l with
  | nil => rfl
  | cons b l ih =>
    unfold sortInsert
    split
    · rfl
    · rename_i hab
      rw [List.filter_cons, ih]
      by_cases hb : p b = true
      · have ha : ¬ p a = true := fun ha => hab (hp a b ha hb)
        simp [List.filter_cons, hb, ha]
      · simp [List.filter_cons, hb]

theorem sort_filter {α : Type} (f : α → α → Int) (p : α → Bool)
    (hp : ∀ a b, p a = true → p b = true → f a b ≤ 0) (l : List α) :
    (sort f l).filter p = l.filter p := by
  induction l with
  | nil => rfl
  | cons a l ih =>
    unfold sort
    rw [sortInsert_filter f p hp, List.filter_cons, List.filter_cons, ih]

theorem compareChars_flip (a b : List Char) :
    0 < compareChars a b ↔ compareChars b a < 0 := by
  induction a generalizing b with
  | nil => cases b <;> simp [compareChars]
  | cons x a ih =>
    cases b with
    | nil => simp [compareChars]
    | cons y b =>
      simp only [compareChars]
      split_ifs <;> first | omega | exact ih b

theorem compareChars_trans (a b c : List Char) :
    compareChars a b ≤ 0 → compareChars b c ≤ 0 → compareChars a c ≤ 0 := by
  induction a generalizing b c with
  | nil => cases c <;> simp [compareChars]
  | cons x a ih =>
    cases b with
    | nil => simp [compareChars]
    | cons y b =>
      cases c with
      | nil => simp [compareChars]
      | cons z c =>
        simp only [compareChars]
        split_ifs <;> first | omega | exact ih b c

theorem codePointCompare_consistent : ConsistentComparator codePointCompare :=
  ⟨fun a b => compareChars_flip a.data b.data,
   fun a b c => compareChars_trans a.data b.data c.data⟩

theorem ConsistentComparator.total {cmp : String → String → Int}
    (h : ConsistentComparator cmp) (a b : String) (hab : ¬ cmp a b ≤ 0) : cmp b a ≤ 0 :=
  le_of_lt ((h.flip a b).mp (not_le.mp hab))

theorem ConsistentComparator.symm_zero {cmp : String → String → Int}
    (h : ConsistentComparator cmp) (a b : String) (hab : cmp a b = 0) : cmp b a = 0 := by
  have h1 := h.flip a b
  have h2 := h.flip b a
  omega

theorem ConsistentComparator.refl_zero {cmp : String → String → Int}
    (h : ConsistentComparator cmp) (a : String) : cmp a a = 0 := by
  have h1 := h.flip a a
  omega

theorem ConsistentComparator.equiv_le {cmp : String → String → Int}
    (h : ConsistentComparator cmp) (a b k : String) (ha : cmp a k = 0) (hb : cmp b k = 0) :
    cmp a b ≤ 0 :=
  h.trans a k b (le_of_eq ha) (le_of_eq (h.symm_zero b k hb))

theorem slice_of_nonneg {α : Type} (l : List α) (i : Nat) (n : Nat) :
    slice l (i : Int) ((i : Int) + (n : Int)) = (l.drop i).take n := by
  unfold slice
  have h1 : ¬ ((i : Int) < 0) := by omega
  have h2 : ¬ ((i : Int) + (n : Int) < 0) := by omega
  simp only [h1, h2, if_false]
  by_cases hi : i ≤ l.length
  · have e1 : (min (i : Int) (l.length : Int)).toNat = i := by
      rw [min_eq_left (by exact_mod_cast hi)]; simp
    rw [e1]
    by_cases hn : i + n ≤ l.length
    · have e2 : (min ((i : Int) + n) (l.length : Int) - min (i : Int) (l.length : Int)).toNat
          = n := by
        rw [min_eq_left (by exact_mod_cast hn), min_eq_left (by exact_mod_cast hi)]; simp
      rw [e2]
    · have e2 : (min ((i : Int) + n) (l.length : Int) - min (i : Int) (l.length : Int)).toNat
          = l.length - i := by
        rw [min_eq_right (by omega), min_eq_left (by exact_mod_cast hi)]; omega
      rw [e2]
      rw [List.take_of_length_le (by simp), List.take_of_length_le (by simp; omega)]
  · have e1 : (min (i : Int) (l.length : Int)).toNat = l.length := by
      rw [min_eq_right (by omega)]; simp
    rw [e1, List.drop_of_length_le (le_refl _), List.drop_of_length_le (by omega)]
    simp

theorem handleSearch_filtered (toLowerCase : String → String) (s : State) (t : String) :
    (handleSearch toLowerCase s t).filtered =
      s.companies.filter (fun r => decide
        ((toLowerCase t).data <:+: (toLowerCase r.name).data ∨
         (toLowerCase t).data <:+: (toLowerCase r.location).data ∨
         (toLowerCase t).data <:+: (toLowerCase r.industry).data)) := by
  unfold handleSearch
  simp only
  apply List.filter_congr
  intro r _
  rw [Bool.eq_iff_iff]
  simp only [Bool.or_eq_true, includes_iff_substring, decide_eq_true_eq, or_assoc]

theorem sort_key_stable (cmp : String → String → Int) (hc : ConsistentComparator cmp)
    (key : Company → String) (l : List Company) :
    (sort (fun a b => cmp (key a) (key b)) l).Perm l ∧
    (sort (fun a b => cmp (key a) (key b)) l).Pairwise (fun a b => cmp (key a) (key b) ≤ 0) ∧
    (∀ k : String,
      (sort (fun a b => cmp (key a) (key b)) l).filter (fun r => decide (cmp (key r) k = 0)) =
        l.filter (fun r => decide (cmp (key r) k = 0))) ∧
    (∀ a b : Company, cmp (key a) (key b) = 0 → List.Sublist [a, b] l →
      List.Sublist [a, b] (sort (fun a b => cmp (key a) (key b)) l)) := by
  have hfilter : ∀ k : String,
      (sort (fun a b => cmp (key a) (key b)) l).filter (fun r => decide (cmp (key r) k = 0)) =
        l.filter (fun r => decide (cmp (key r) k = 0)) := by
    intro k
    apply sort_filter
    intro a b ha hb
    exact hc.equiv_le _ _ k (of_decide_eq_true ha) (of_decide_eq_true hb)
  refine ⟨sort_perm _ l, ?_, hfilter, ?_⟩
  · exact sort_pairwise (fun a b => cmp (key a) (key b))
      (fun a b h => hc.total (key a) (key b) h)
      (fun a b c => hc.trans (key a) (key b) (key c)) l
  · intro a b hab hsub
    have h1 := hsub.filter (fun r => decide (cmp (key r) (key b) = 0))
    have h2 : [a, b].filter (fun r => decide (cmp (key r) (key b) = 0)) = [a, b] := by
      simp [List.filter_cons, hab, hc.refl_zero (key b)]
    rw [h2, ← hfilter (key b)] at h1
    exact h1.trans (List.filter_sublist _)

theorem totalPages_eq_ceil (s : State) :
    totalPages s = ⌈(s.filtered.length : ℚ) / (companiesPerPage : ℚ)⌉ :=
  ceilDiv_eq_ceil s.filtered.length companiesPerPage (by decide)

theorem totalPages_pos (s : State) (hne : s.filtered ≠ []) : 1 ≤ totalPages s := by
  have hlen : 0 < s.filtered.length := List.length_pos.mpr hne
  unfold totalPages ceilDiv companiesPerPage
  simp only [Int.ofNat_eq_coe]
  omega

theorem totalPages_of_ne_nil (s : State) (hne : s.filtered ≠ []) :
    totalPages s = max 1 ⌈(s.filtered.length : ℚ) / (companiesPerPage : ℚ)⌉ := by
  rw [← totalPages_eq_ceil s, max_eq_right (totalPages_pos s hne)]

theorem currentCompanies_eq (s : State) (k : Nat) (hk : 1 ≤ k) (hs : s.currentPage = (k : Int)) :
    currentCompanies s = (s.filtered.drop ((k - 1) * 5)).take 5 := by
  unfold currentCompanies indexOfFirst indexOfLast companiesPerPage
  have e1 : s.currentPage * ((5 : Nat) : Int) - ((5 : Nat) : Int) = (((k - 1) * 5 : Nat) : Int) := by
    rw [hs]; omega
  have e2 : s.currentPage * ((5 : Nat) : Int) = (((k - 1) * 5 : Nat) : Int) + ((5 : Nat) : Int) := by
    rw [hs]; omega
  rw [e1, e2]
  exact slice_of_nonneg s.filtered ((k - 1) * 5) 5

theorem handleSort_length (cmp : String → String → Int) (s : State) (k : String) :
    (handleSort cmp s k).filtered.length = s.filtered.length := by
  unfold handleSort
  simp only
  split_ifs
  · exact (sort_perm _ _).length_eq
  · exact (sort_perm _ _).length_eq
  · rfl

theorem step_page_range (toLowerCase : String → String) (cmp : String → String → Int)
    (s : State) (e : Event)
    (h : (0 < s.filtered.length → 1 ≤ s.currentPage ∧ s.currentPage ≤ totalPages s) ∧
      (s.filtered.length = 0 → s.currentPage = 0 ∨ s.currentPage = 1)) :
    (0 < (step toLowerCase cmp s e).filtered.length →
      1 ≤ (step toLowerCase cmp s e).currentPage ∧
      (step toLowerCase cmp s e).currentPage ≤ totalPages (step toLowerCase cmp s e)) ∧
    ((step toLowerCase cmp s e).filtered.length = 0 →
      (step toLowerCase cmp s e).currentPage = 0 ∨
      (step toLowerCase cmp s e).currentPage = 1) := by
  have hT : ∀ u : State, totalPages u = (((u.filtered.length + 4) / 5 : Nat) : Int) := by
    intro u; rfl
  cases e with
  | search t =>
    have hp : (step toLowerCase cmp s (.search t)).currentPage = 1 := rfl
    rw [hp, hT]
    constructor
    · intro hpos; omega
    · intro _; exact Or.inr rfl
  | sort k =>
    have hp : (step toLowerCase cmp s (.sort k)).currentPage = s.currentPage := rfl
    have hl : (step toLowerCase cmp s (.sort k)).filtered.length = s.filtered.length :=
      handleSort_length cmp s k
    rw [hp, hT, hl]
    rw [hT] at h
    exact h
  | next =>
    have hp : (step toLowerCase cmp s .next).currentPage =
        min (s.currentPage + 1) (totalPages s) := rfl
    have hl : (step toLowerCase cmp s .next).filtered.length = s.filtered.length := rfl
    rw [hp, hT, hl, hT]
    rw [hT] at h
    constructor
    · intro hpos; have := h.1 hpos; omega
    · intro hz; have := h.2 hz; omega
  | prev =>
    have hp : (step toLowerCase cmp s .prev).currentPage = max (s.currentPage - 1) 1 := rfl
    have hl : (step toLowerCase cmp s .prev).filtered.length = s.filtered.length := rfl
    rw [hp, hT, hl]
    rw [hT] at h
    constructor
    · intro hpos; have := h.1 hpos; omega
    · intro hz; have := h.2 hz; omega

theorem run_page_range (toLowerCase : String → String) (cmp : String → String → Int)
    (data : List Company) (events : List Event) :
    (0 < (run toLowerCase cmp (load (.response true (.ok data))) events).filtered.length →
      1 ≤ (run toLowerCase cmp (load (.response true (.ok data))) events).currentPage ∧
      (run toLowerCase cmp (load (.response true (.ok data))) events).currentPage ≤
        totalPages (run toLowerCase cmp (load (.response true (.ok data))) events)) ∧
    ((run toLowerCase cmp (load (.response true (.ok data))) events).filtered.length = 0 →
      (run toLowerCase cmp (load (.response true (.ok data))) events).currentPage = 0 ∨
      (run toLowerCase cmp (load (.response true (.ok data))) events).currentPage = 1) := by
  have hgen : ∀ (events : List Event) (s : State),
      ((0 < s.filtered.length → 1 ≤ s.currentPage ∧ s.currentPage ≤ totalPages s) ∧
        (s.filtered.length = 0 → s.currentPage = 0 ∨ s.currentPage = 1)) →
      ((0 < (run toLowerCase cmp s events).filtered.length →
        1 ≤ (run toLowerCase cmp s events).currentPage ∧
        (run toLowerCase cmp s events).currentPage ≤
          totalPages (run toLowerCase cmp s events)) ∧
      ((run toLowerCase cmp s events).filtered.length = 0 →
        (run toLowerCase cmp s events).currentPage = 0 ∨
        (run toLowerCase cmp s events).currentPage = 1)) := by
    intro events
    induction events with
    | nil => intro s h; exact h
    | cons e es ih =>
      intro s h
      exact ih (step toLowerCase cmp s e) (step_page_range toLowerCase cmp s e h)
  apply hgen
  have hp : (load (.response true (.ok data))).currentPage = 1 := rfl
  have hT : totalPages (load (.response true (.ok data))) =
      ((((load (.response true (.ok data))).filtered.length + 4) / 5 : Nat) : Int) := rfl
  rw [hp, hT]
  constructor
  · intro hpos; omega
  · intro _; exact Or.inr rfl

/-! ## The claims -/

/-- C1 (filter correctness).  For every lower-casing function, every state and
every raw search text `t`, `handleSearch` sets `filtered` to the catalog
filtered, in catalog order and with catalog multiplicity, by the predicate
"lowercase `t` is a contiguous substring of the lowercase name, location or
industry"; a record is in the result exactly when it is in the catalog and
matches; the result is a subsequence of the catalog.  On the three-record
catalog the text "ny" gives Acme and Cadence. -/
theorem C1_filter_correctness :
    (∀ (toLowerCase : String → String) (s : State) (t : String),
      (handleSearch toLowerCase s t).filtered =
        s.companies.filter (fun r => decide
          ((toLowerCase t).data <:+: (toLowerCase r.name).data ∨
           (toLowerCase t).data <:+: (toLowerCase r.location).data ∨
           (toLowerCase t).data <:+: (toLowerCase r.industry).data)) ∧
      (∀ r, r ∈ (handleSearch toLowerCase s t).filtered ↔
        r ∈ s.companies ∧
          ((toLowerCase t).data <:+: (toLowerCase r.name).data ∨
           (toLowerCase t).data <:+: (toLowerCase r.location).data ∨
           (toLowerCase t).data <:+: (toLowerCase r.industry).data)) ∧
      List.Sublist (handleSearch toLowerCase s t).filtered s.companies) ∧
    (handleSearch asciiLowerCase sampleState "ny").filtered = [acme, cadence] := by
  refine ⟨fun lower s t => ⟨handleSearch_filtered lower s t, ?_, ?_⟩, by decide⟩
  · intro r
    rw [handleSearch_filtered, List.mem_filter, decide_eq_true_eq]
  · rw [handleSearch_filtered]
    exact List.filter_sublist _

/-- C8 (page reset on filter).  For every lower-casing function, every state
and every search text (the empty text and the text equal to the stored term
included), the state after `handleSearch` has `currentPage = 1`. -/
theorem C8_page_reset_on_filter (toLowerCase : String → String) (s : State) (t : String) :
    (handleSearch toLowerCase s t).currentPage = 1 ∧
    (handleSearch toLowerCase s "").currentPage = 1 ∧
    (handleSearch toLowerCase s s.search).currentPage = 1 :=
  ⟨rfl, rfl, rfl⟩

/-- C7 (filter idempotence and independence from prior state).  Two states with
the same catalog get the same filtered list from the same search; the search
applied twice gives the same state as applied once; and the search run on a
catalog that is itself the result of that search returns that result. -/
theorem C7_filter_idempotence (toLowerCase : String → String) (s₁ s₂ : State) (t : String)
    (hC : s₁.companies = s₂.companies) :
    (handleSearch toLowerCase s₁ t).filtered = (handleSearch toLowerCase s₂ t).filtered ∧
    handleSearch toLowerCase (handleSearch toLowerCase s₁ t) t = handleSearch toLowerCase s₁ t ∧
    (handleSearch toLowerCase
        { s₁ with companies := (handleSearch toLowerCase s₁ t).filtered } t).filtered =
      (handleSearch toLowerCase s₁ t).filtered := by
  refine ⟨?_, rfl, ?_⟩
  · simp only [handleSearch, hC]
  · simp only [handleSearch, List.filter_filter, Bool.and_self]

/-- Witness of C7: the loaded scenario state and the same state after a sort and
a page step share the catalog, so the search "ny" filters both alike. -/
theorem C7_filter_idempotence_witness :
    sampleState.companies =
      (nextPage (handleSort codePointCompare sampleState "industry")).companies ∧
    (handleSearch asciiLowerCase sampleState "ny").filtered =
      (handleSearch asciiLowerCase
        (nextPage (handleSort codePointCompare sampleState "industry")) "ny").filtered :=
  ⟨rfl, (C7_filter_idempotence asciiLowerCase sampleState
      (nextPage (handleSort codePointCompare sampleState "industry")) "ny" rfl).1⟩

/-- C10 (sort is lost on re-filter).  For every catalog, sort key and search
text, a sort followed by a search keeps the sort key in `sortBy` and sets
`filtered` to the matches in catalog order, the list the search gives without
the sort, a subsequence of the catalog.  There is a catalog and an event
sequence after which `sortBy` is "name" and the displayed list is not in
non-decreasing name order. -/
theorem C10_sort_lost_on_refilter :
    (∀ (toLowerCase : String → String) (localeCompare : String → String → Int)
        (s : State) (k t : String),
      (handleSearch toLowerCase (handleSort localeCompare s k) t).sortBy = k ∧
      (handleSearch toLowerCase (handleSort localeCompare s k) t).filtered =
        (handleSearch toLowerCase s t).filtered ∧
      (handleSearch toLowerCase (handleSort localeCompare s k) t).filtered =
        s.companies.filter (fun r => decide
          ((toLowerCase t).data <:+: (toLowerCase r.name).data ∨
           (toLowerCase t).data <:+: (toLowerCase r.location).data ∨
           (toLowerCase t).data <:+: (toLowerCase r.industry).data)) ∧
      List.Sublist (handleSearch toLowerCase (handleSort localeCompare s k) t).filtered
        s.companies) ∧
    (∃ (catalog : List Company) (events : List Event),
      (run asciiLowerCase codePointCompare (load (.response true (.ok catalog))) events).sortBy
        = "name" ∧
      ¬ List.Pairwise (fun a b => codePointCompare a.name b.name ≤ 0)
        (currentCompanies
          (run asciiLowerCase codePointCompare (load (.response true (.ok catalog))) events))) := by
  refine ⟨fun lower cmp s k t => ⟨rfl, rfl, ?_, ?_⟩, ?_⟩
  · exact handleSearch_filtered lower (handleSort cmp s k) t
  · rw [handleSearch_filtered lower (handleSort cmp s k) t]
    exact List.filter_sublist _
  · refine ⟨[ballCo, acme], [.sort "name", .search ""], by decide, ?_⟩
    have h : currentCompanies (run asciiLowerCase codePointCompare
        (load (.response true (.ok [ballCo, acme]))) [.sort "name", .search ""])
        = [ballCo, acme] := by decide
    rw [h]
    decide

/-- C2 (sort stability).  For every comparison function that is a consistent
comparator and every state: `handleSort` with the empty selector value leaves
`filtered` as it is; with "name" (and likewise with "industry") the new
`filtered` is a permutation of the old one, is non-decreasing by that field
under the comparison, keeps every class of records with equal keys in its old
order, and keeps every pair of equal-key records in its old relative order.
When the comparison puts "Retail" before "Tech", sorting the three-record
catalog by industry gives Ball Co, Acme, Cadence. -/
theorem C2_sort_stability (localeCompare : String → String → Int)
    (hc : ConsistentComparator localeCompare) (s : State) :
    (handleSort localeCompare s "").filtered = s.filtered ∧
    ((handleSort localeCompare s "name").filtered.Perm s.filtered ∧
     (handleSort localeCompare s "name").filtered.Pairwise
        (fun a b => localeCompare a.name b.name ≤ 0) ∧
     (∀ k : String,
        (handleSort localeCompare s "name").filtered.filter
            (fun r => decide (localeCompare r.name k = 0)) =
          s.filtered.filter (fun r => decide (localeCompare r.name k = 0))) ∧
     (∀ a b : Company, localeCompare a.name b.name = 0 → List.Sublist [a, b] s.filtered →
        List.Sublist [a, b] (handleSort localeCompare s "name").filtered)) ∧
    ((handleSort localeCompare s "industry").filtered.Perm s.filtered ∧
     (handleSort localeCompare s "industry").filtered.Pairwise
        (fun a b => localeCompare a.industry b.industry ≤ 0) ∧
     (∀ k : String,
        (handleSort localeCompare s "industry").filtered.filter
            (fun r => decide (localeCompare r.industry k = 0)) =
          s.filtered.filter (fun r => decide (localeCompare r.industry k = 0))) ∧
     (∀ a b : Company, localeCompare a.industry b.industry = 0 →
        List.Sublist [a, b] s.filtered →
        List.Sublist [a, b] (handleSort localeCompare s "industry").filtered)) ∧
    (localeCompare "Retail" "Tech" < 0 →
      (handleSort localeCompare sampleState "industry").filtered = [ballCo, acme, cadence]) := by
  have hname : (handleSort localeCompare s "name").filtered =
      sort (fun a b => localeCompare a.name b.name) s.filtered := by
    simp [handleSort]
  have hind : (handleSort localeCompare s "industry").filtered =
      sort (fun a b => localeCompare a.industry b.industry) s.filtered := by
    simp [handleSort]
  refine ⟨by simp [handleSort], ?_, ?_, ?_⟩
  · rw [hname]
    exact sort_key_stable localeCompare hc (fun c => c.name) s.filtered
  · rw [hind]
    exact sort_key_stable localeCompare hc (fun c => c.industry) s.filtered
  · intro hlt
    have h1 : ¬ localeCompare "Tech" "Retail" ≤ 0 :=
      not_le.mpr ((hc.flip "Tech" "Retail").mpr hlt)
    have h2 : localeCompare "Tech" "Tech" ≤ 0 := le_of_eq (hc.refl_zero "Tech")
    have h3 : localeCompare "Retail" "Tech" ≤ 0 := le_of_lt hlt
    have hs : (handleSort localeCompare sampleState "industry").filtered =
        sort (fun a b => localeCompare a.industry b.industry) [acme, ballCo, cadence] := by
      simp [handleSort, sampleState, load, loadChain, settle, sampleCatalog]
    rw [hs]
    simp [sort, sortInsert, acme, ballCo, cadence, h1, h2, h3]

/-- Witness of C2: the character-order comparison is a consistent comparator
that puts "Retail" before "Tech"; with it the three-record catalog sorted by
industry is Ball Co, Acme, Cadence. -/
theorem C2_sort_stability_witness :
    ConsistentComparator codePointCompare ∧ codePointCompare "Retail" "Tech" < 0 ∧
    (handleSort codePointCompare sampleState "industry").filtered = [ballCo, acme, cadence] :=
  ⟨codePointCompare_consistent, by decide,
   (C2_sort_stability codePointCompare codePointCompare_consistent sampleState).2.2.2
     (by decide)⟩

/-- C3, evaluation at the failing input.  After a successful load of the empty
catalog the list is empty and `totalPages` is 0, where the claim requires
`max(1, ceil(0 / 5)) = 1`; the view shown is page 1 of 0 with the next button
enabled.  The same holds after the search "zzz" on the three-record catalog. -/
theorem C3_totalPages_zero_on_empty :
    (load (.response true (.ok []))).filtered = [] ∧
    totalPages (load (.response true (.ok []))) = 0 ∧
    totalPages (load (.response true (.ok []))) ≠
      max 1 ⌈(((load (.response true (.ok []))).filtered.length : ℚ)) /
        (companiesPerPage : ℚ)⌉ ∧
    render (load (.response true (.ok []))) = .directory "" "" [] 1 0 true false ∧
    (handleSearch asciiLowerCase sampleState "zzz").filtered = [] ∧
    totalPages (handleSearch asciiLowerCase sampleState "zzz") = 0 := by
  refine ⟨rfl, by decide, ?_, by decide, by decide, by decide⟩
  have h0 : totalPages (load (.response true (.ok []))) = 0 := by decide
  rw [h0]
  have h1 := le_max_left (1 : Int)
    ⌈(((load (.response true (.ok []))).filtered.length : ℚ)) / (companiesPerPage : ℚ)⌉
  omega

/-- C4, evaluation at the failing inputs.  After a successful load of the empty
catalog the event `next` sets `currentPage` to 0, whatever the host functions.
After a successful load of the three-record catalog, the search "zzz" matches
nothing, the view then shown has the next button enabled, and `next` sets
`currentPage` to 0, outside the interval from 1 to `max(1, ceil(0 / 5))`. -/
theorem C4_currentPage_reaches_zero :
    (∀ (toLowerCase : String → String) (localeCompare : String → String → Int),
      (run toLowerCase localeCompare (load (.response true (.ok []))) [.next]).currentPage
        = 0) ∧
    render (run asciiLowerCase codePointCompare sampleState [.search "zzz"]) =
      .directory "zzz" "" [] 1 0 true false ∧
    (run asciiLowerCase codePointCompare sampleState [.search "zzz", .next]).filtered = [] ∧
    (run asciiLowerCase codePointCompare sampleState [.search "zzz", .next]).currentPage = 0 ∧
    ¬ (1 ≤ (run asciiLowerCase codePointCompare sampleState
          [.search "zzz", .next]).currentPage ∧
       (run asciiLowerCase codePointCompare sampleState [.search "zzz", .next]).currentPage ≤
        max 1 ⌈((run asciiLowerCase codePointCompare sampleState
          [.search "zzz", .next]).filtered.length : ℚ) / (companiesPerPage : ℚ)⌉) := by
  refine ⟨fun _ _ => rfl, by decide, by decide, by decide, ?_⟩
  have h0 : (run asciiLowerCase codePointCompare sampleState
      [.search "zzz", .next]).currentPage = 0 := by decide
  rw [h0]
  omega

/-- C5 (next and previous stepping).  For every state with a non-empty list and
`currentPage` between 1 and `totalPages` (the ceiling of the length over 5):
`nextPage` sets `currentPage` to `min(p + 1, T)` and `prevPage` to
`max(p - 1, 1)`, both results are between 1 and `T`, `nextPage` on the last page
and `prevPage` on page 1 return the state unchanged, and with 12 records and
page 1 three `nextPage` steps give the pages 2, 3, 3. -/
theorem C5_next_prev_stepping (s : State) (hne : s.filtered ≠ [])
    (h1 : 1 ≤ s.currentPage) (hT : s.currentPage ≤ totalPages s) :
    totalPages s = ⌈(s.filtered.length : ℚ) / (5 : ℚ)⌉ ∧
    nextPage s = { s with currentPage := min (s.currentPage + 1) (totalPages s) } ∧
    prevPage s = { s with currentPage := max (s.currentPage - 1) 1 } ∧
    (1 ≤ (nextPage s).currentPage ∧ (nextPage s).currentPage ≤ totalPages (nextPage s)) ∧
    (1 ≤ (prevPage s).currentPage ∧ (prevPage s).currentPage ≤ totalPages (prevPage s)) ∧
    (s.currentPage = totalPages s → nextPage s = s) ∧
    (s.currentPage = 1 → prevPage s = s) ∧
    (s.filtered.length = 12 → s.currentPage = 1 →
      totalPages s = 3 ∧
      (nextPage s).currentPage = 2 ∧
      (nextPage (nextPage s)).currentPage = 3 ∧
      (nextPage (nextPage (nextPage s))).currentPage = 3) := by
  have hpos := totalPages_pos s hne
  refine ⟨?_, rfl, rfl, ?_, ?_, ?_, ?_, ?_⟩
  · have h := totalPages_eq_ceil s
    simpa [companiesPerPage] using h
  · show 1 ≤ min (s.currentPage + 1) (totalPages s) ∧
      min (s.currentPage + 1) (totalPages s) ≤ totalPages s
    omega
  · show 1 ≤ max (s.currentPage - 1) 1 ∧ max (s.currentPage - 1) 1 ≤ totalPages s
    omega
  · intro he
    have : min (s.currentPage + 1) (totalPages s) = s.currentPage := by omega
    simp [nextPage, this]
  · intro he
    have : max (s.currentPage - 1) 1 = s.currentPage := by omega
    simp [prevPage, this]
  · intro hlen hp
    have h3 : totalPages s = 3 := by
      simp [totalPages, ceilDiv, companiesPerPage, hlen]
    have t1 : ∀ u : State, u.filtered = s.filtered → totalPages u = 3 := by
      intro u hu
      simp [totalPages, ceilDiv, companiesPerPage, hu, hlen]
    have n1 : (nextPage s).currentPage = 2 := by
      show min (s.currentPage + 1) (totalPages s) = 2
      omega
    have n2 : (nextPage (nextPage s)).currentPage = 3 := by
      show min ((nextPage s).currentPage + 1) (totalPages (nextPage s)) = 3
      rw [n1, t1 (nextPage s) rfl]; rfl
    have n3 : (nextPage (nextPage (nextPage s))).currentPage = 3 := by
      show min ((nextPage (nextPage s)).currentPage + 1) (totalPages (nextPage (nextPage s))) = 3
      rw [n2, t1 (nextPage (nextPage s)) rfl]; rfl
    exact ⟨h3, n1, n2, n3⟩

/-- Witness of C5: twelve loaded records on page 1 satisfy the hypotheses, and
three `nextPage` steps give the pages 2, 3, 3. -/
theorem C5_next_prev_stepping_witness :
    (load (.response true (.ok twelveCompanies))).filtered ≠ [] ∧
    1 ≤ (load (.response true (.ok twelveCompanies))).currentPage ∧
    (load (.response true (.ok twelveCompanies))).currentPage ≤
      totalPages (load (.response true (.ok twelveCompanies))) ∧
    totalPages (load (.response true (.ok twelveCompanies))) = 3 ∧
    (nextPage (load (.response true (.ok twelveCompanies)))).currentPage = 2 ∧
    (nextPage (nextPage (load (.response true (.ok twelveCompanies))))).currentPage = 3 ∧
    (nextPage (nextPage (nextPage
      (load (.response true (.ok twelveCompanies)))))).currentPage = 3 :=
  ⟨by decide, by decide, by decide,
   (C5_next_prev_stepping (load (.response true (.ok twelveCompanies)))
      (by decide) (by decide) (by decide)).2.2.2.2.2.2.2 (by decide) (by decide)⟩

/-- C6 (visible window).  For every state whose `currentPage` is `k ≥ 1`, the
visible records are the list with the first `(k - 1) * 5` elements dropped and
then at most 5 taken; position `j` of the window holds the element of the list
at index `(k - 1) * 5 + j` when `j < 5` and that index exists, and nothing
otherwise; the window has at most 5 records, and it is empty when
`(k - 1) * 5` is at least the length of the list. -/
theorem C6_visible_window (s : State) (k : Nat) (hk : 1 ≤ k) (hs : s.currentPage = (k : Int)) :
    currentCompanies s = (s.filtered.drop ((k - 1) * 5)).take 5 ∧
    (∀ j : Nat, (currentCompanies s)[j]? =
      if j < 5 then s.filtered[(k - 1) * 5 + j]? else none) ∧
    (∀ (r : Company) (j : Nat), (currentCompanies s)[j]? = some r ↔
      ((k - 1) * 5 ≤ (k - 1) * 5 + j ∧ (k - 1) * 5 + j < k * 5 ∧
        (k - 1) * 5 + j < s.filtered.length ∧ s.filtered[(k - 1) * 5 + j]? = some r)) ∧
    (currentCompanies s).length ≤ 5 ∧
    (s.filtered.length ≤ (k - 1) * 5 → currentCompanies s = []) := by
  have hw := currentCompanies_eq s k hk hs
  have hget : ∀ j : Nat, (currentCompanies s)[j]? =
      if j < 5 then s.filtered[(k - 1) * 5 + j]? else none := by
    intro j
    rw [hw]
    by_cases hj : j < 5
    · rw [List.getElem?_take_of_lt hj, List.getElem?_drop, if_pos hj]
    · rw [if_neg hj, List.getElem?_eq_none]
      exact le_trans (List.length_take_le _ _) (not_lt.mp hj)
  refine ⟨hw, hget, ?_, ?_, ?_⟩
  · intro r j
    rw [hget j]
    constructor
    · intro h
      by_cases hj : j < 5
      · rw [if_pos hj] at h
        have hlt : (k - 1) * 5 + j < s.filtered.length := by
          by_contra hcon
          rw [List.getElem?_eq_none (not_lt.mp hcon)] at h
          exact Option.noConfusion h
        exact ⟨Nat.le_add_right _ _, by omega, hlt, h⟩
      · rw [if_neg hj] at h
        exact Option.noConfusion h
    · rintro ⟨_, h2, _, h4⟩
      have hj : j < 5 := by omega
      rw [if_pos hj]
      exact h4
  · rw [hw]
    exact List.length_take_le _ _
  · intro hlen
    rw [hw, List.drop_of_length_le hlen]
    rfl

/-- Witness of C6: twelve records on page 3 (reached by two `nextPage` steps)
show the last two records. -/
theorem C6_visible_window_witness :
    1 ≤ 3 ∧
    (nextPage (nextPage (load (.response true (.ok twelveCompanies))))).currentPage
      = ((3 : Nat) : Int) ∧
    currentCompanies (nextPage (nextPage (load (.response true (.ok twelveCompanies))))) =
      ((nextPage (nextPage (load (.response true (.ok twelveCompanies))))).filtered.drop
        ((3 - 1) * 5)).take 5 ∧
    (currentCompanies
      (nextPage (nextPage (load (.response true (.ok twelveCompanies)))))).length = 2 :=
  ⟨by decide, by decide,
   (C6_visible_window (nextPage (nextPage (load (.response true (.ok twelveCompanies)))))
      3 (by decide) (by decide)).1, by decide⟩

/-- C9, the claim as stated fails at the empty message: the load fails with
message "", the state holds that message, and the component returns the
directory view (no cards, page 1 of 0), not the failure message. -/
theorem C9_empty_message_counterexample :
    loadChain (.rejected "") = .error "" ∧
    (load (.rejected "")).error = "" ∧
    render (load (.rejected "")) = .directory "" "" [] 1 0 true false ∧
    render (load (.rejected "")) ≠ .errorView "" := by
  refine ⟨rfl, rfl, by decide, by decide⟩

/-- C9 as amended.  For every fetch outcome whose promise chain fails with a
message `m` (any text): the state after the load has `loading = false` and
`error = m` verbatim, the catalog and the filtered list are still empty, and
the visible records of that state are empty.  For every such `m` that is not
the empty text, the component returns the failure message `m` and not the
directory view.  A rejected fetch fails with its own message, and a response
that is not `ok` fails with "Failed to load company data". -/
theorem C9_load_failure (r : FetchResult) (m : String) (hr : loadChain r = .error m) :
    (load r).loading = false ∧
    (load r).error = m ∧
    (load r).companies = [] ∧
    (load r).filtered = [] ∧
    currentCompanies (load r) = [] ∧
    (m ≠ "" → render (load r) = .errorView m) ∧
    loadChain (.rejected m) = .error m ∧
    (∀ json, loadChain (.response false json) = .error "Failed to load company data") := by
  have hl : load r = { initialState with error := m, loading := false } := by
    unfold load
    rw [hr]
    rfl
  refine ⟨?_, ?_, ?_, ?_, ?_, ?_, rfl, fun _ => rfl⟩
  · rw [hl]
  · rw [hl]
  · rw [hl]; rfl
  · rw [hl]; rfl
  · rw [hl]; rfl
  · intro hm
    rw [hl]
    simp [render, hm]

/-- Witness of C9 as amended: a fetch rejected with "network unreachable" ends
with that message stored and shown. -/
theorem C9_load_failure_witness :
    loadChain (.rejected "network unreachable") = .error "network unreachable" ∧
    "network unreachable" ≠ "" ∧
    (load (.rejected "network unreachable")).error = "network unreachable" ∧
    (load (.rejected "network unreachable")).companies = [] ∧
    render (load (.rejected "network unreachable")) = .errorView "network unreachable" :=
  ⟨rfl, by decide,
   (C9_load_failure (.rejected "network unreachable") "network unreachable" rfl).2.1,
   (C9_load_failure (.rejected "network unreachable") "network unreachable" rfl).2.2.1,
   (C9_load_failure (.rejected "network unreachable") "network unreachable" rfl).2.2.2.2.2.1
     (by decide)⟩

end App
